import Mathlib

/-!
Verification of the pure core logic of the voiceSense cognitive-wellness app.

The development shallowly embeds three parts of the TypeScript source:

* the Cognitive Linguistic Index (CLI) scorer (`calculateCLIScore` and its six
  sub-score functions) from `lib/cliScoring.ts`;
* the passive health-information extractor (`extractHealthInfo`) from
  `lib/healthExtraction.ts`;
* the per-collection persistence sync loop from `components/App.tsx`
  (`saveUserData`), which inserts local items whose id is absent remotely.

JavaScript strings are modelled as lists of (ASCII) code points (`List Nat`);
JavaScript numbers are modelled as rationals (`ℚ`), which matches the source
exactly on every branch condition and arithmetic operation used here except
for floating-point rounding error, which the claims do not depend on.
-/

set_option maxRecDepth 10000

/-! ## Strings as lists of code points -/

/-- A JavaScript string, modelled as its list of code points. -/
abbrev Str := List Nat

/-- Convert a Lean string literal to its code-point list. -/
def str (s : String) : Str := s.data.map Char.toNat

/-- `\w` of a JavaScript regex: ASCII letters, digits and underscore. -/
def isWordChar (c : Nat) : Bool :=
  (48 ≤ c && c ≤ 57) || (65 ≤ c && c ≤ 90) || (97 ≤ c && c ≤ 122) || c == 95

/-- Whitespace recognised by `String.prototype.trim` (ASCII fragment). -/
def isWs (c : Nat) : Bool :=
  c == 32 || c == 9 || c == 10 || c == 13 || c == 11 || c == 12

/-- `toLowerCase` on a code point (ASCII fragment). -/
def lowerChar (c : Nat) : Nat := if 65 ≤ c && c ≤ 90 then c + 32 else c

/-- `String.prototype.toLowerCase` (ASCII fragment). -/
def lower (s : Str) : Str := s.map lowerChar

/-- `String.prototype.trim`: drop whitespace from both ends. -/
def trim (s : Str) : Str :=
  ((s.dropWhile isWs).reverse.dropWhile isWs).reverse

/-- Does `pat` occur at the start of `hay`? -/
def startsWith : Str → Str → Bool
  | _, [] => true
  | [], _ :: _ => false
  | h :: hs, p :: ps => h == p && startsWith hs ps

/-- `String.prototype.includes`: does `pat` occur anywhere in `hay`? -/
def containsSub : Str → Str → Bool
  | [], pat => pat.isEmpty
  | h :: t, pat => startsWith (h :: t) pat || containsSub t pat

/-- Split a string at every occurrence of a separator code point from `seps`,
keeping empty pieces (the JS `split` result before any filtering). -/
def splitOnAux (seps : List Nat) : Str → Str → List Str
  | [], acc => [acc.reverse]
  | c :: rest, acc =>
    if seps.contains c then acc.reverse :: splitOnAux seps rest []
    else splitOnAux seps rest (c :: acc)

def splitOn (seps : List Nat) (s : Str) : List Str := splitOnAux seps s []

/-- `text.split(/[.!?]+/).filter(s => s.trim().length > 0)`.  Splitting on a
one-or-more character class and splitting on single characters agree once the
blank pieces are filtered out, so we model the former by the latter. -/
def sentencesOf (text : Str) : List Str :=
  (splitOn [46, 33, 63] text).filter (fun s => decide (0 < (trim s).length))

/-- Maximal runs of `\w` characters: the matches of `/\b\w+\b/g`. -/
def wordsAux : Str → Str → List Str
  | [], cur => if cur.isEmpty then [] else [cur.reverse]
  | c :: rest, cur =>
    if isWordChar c then wordsAux rest (c :: cur)
    else if cur.isEmpty then wordsAux rest cur
    else cur.reverse :: wordsAux rest []

/-- `text.match(/\b\w+\b/g) || []`. -/
def wordsOf (text : Str) : List Str := wordsAux text []

/-- `arr.join(' ')`. -/
def joinSpace : List Str → Str
  | [] => []
  | [s] => s
  | s :: rest => s ++ 32 :: joinSpace rest

/-- `s.split(' ')` (JS semantics: the empty string yields `[""]`). -/
def jsSplitSpace (s : Str) : List Str := splitOn [32] s

/-- Does the alternative `alt` match in `hay` starting right after `prev`
(`none` = start of string), with `\b` word boundaries at both ends?  All
alternatives used in the source start and end with a `\w` character, so the
boundary conditions are: the preceding character (if any) and the character
following the match (if any) are not word characters. -/
def altAt (prev : Option Nat) (hay : Str) (alt : Str) : Bool :=
  startsWith hay alt &&
    (match prev with | none => true | some c => ! isWordChar c) &&
    (match hay.drop alt.length with | [] => true | c :: _ => ! isWordChar c)

def altsMatchAux (alts : List Str) : Option Nat → Str → Bool
  | prev, [] => alts.any (fun a => altAt prev [] a)
  | prev, c :: t => alts.any (fun a => altAt prev (c :: t) a) || altsMatchAux alts (some c) t

/-- Truthiness of `hay.match(/\b(a₁|a₂|…)\b/)`: some alternative occurs
somewhere in `hay` with word boundaries on both sides. -/
def regexMatches (hay : Str) (alts : List Str) : Bool := altsMatchAux alts none hay

/-! ## Health information extraction (`lib/healthExtraction.ts`) -/

/-- The `HealthCategory` union type (pain, sleep, and so on). -/
inductive HealthCategory where
  | pain | sleep | mood | energy | appetite | mobility | medication | symptom
deriving DecidableEq, Repr

inductive Severity where
  | low | moderate | high
deriving DecidableEq, Repr

inductive Confidence where
  | explicit | inferred
deriving DecidableEq, Repr

/-- One entry of the `HEALTH_KEYWORDS` table. -/
structure HealthKeyword where
  category : HealthCategory
  keywords : List Str
  severity : Option Severity
deriving DecidableEq

/-- The `HEALTH_KEYWORDS` constant. -/
def HEALTH_KEYWORDS : List HealthKeyword := [
  ⟨.pain, [str "pain", str "ache", str "aching", str "sore", str "hurt", str "hurting",
           str "discomfort", str "tender", str "stiff", str "sharp", str "dull",
           str "throbbing", str "burning"], some .moderate⟩,
  ⟨.sleep, [str "sleep", str "slept", str "sleeping", str "insomnia", str "tired",
            str "exhausted", str "restless", str "wake", str "waking", str "nightmare",
            str "dream", str "nap", str "snooze"], some .low⟩,
  ⟨.mood, [str "happy", str "sad", str "depressed", str "anxious", str "worried",
           str "stressed", str "calm", str "peaceful", str "frustrated", str "angry",
           str "upset", str "down", str "blue", str "mood"], some .low⟩,
  ⟨.energy, [str "energy", str "energetic", str "tired", str "fatigue", str "exhausted",
             str "lethargic", str "weak", str "drained", str "lively", str "active",
             str "sluggish"], some .low⟩,
  ⟨.appetite, [str "appetite", str "hungry", str "eating", str "food", str "meal",
               str "nausea", str "nauseous", str "stomach", str "digestion",
               str "indigestion", str "appetite loss"], some .low⟩,
  ⟨.mobility, [str "walk", str "walking", str "move", str "moving", str "mobility",
               str "stiff", str "stiffness", str "joint", str "knee", str "hip",
               str "back", str "shoulder", str "limb", str "leg", str "arm"], some .moderate⟩,
  ⟨.medication, [str "medication", str "medicine", str "pill", str "prescription",
                 str "drug", str "dose", str "dosage", str "take", str "taking",
                 str "forgot", str "missed", str "pharmacy"], some .high⟩,
  ⟨.symptom, [str "symptom", str "fever", str "cough", str "headache", str "dizziness",
              str "nausea", str "vomiting", str "diarrhea", str "constipation",
              str "rash", str "swelling", str "inflammation"], some .moderate⟩]

/-- The keyword list the table assigns to a category (lookup by category). -/
def keywordsOf (c : HealthCategory) : List Str :=
  ((HEALTH_KEYWORDS.find? (fun t => decide (t.category = c))).map (·.keywords)).getD []

/-- Code point 39, the apostrophe used in the negation words. -/
def apos : Nat := 39

/-- Alternatives of the negation regex
`/\b(no|not|don.t|doesn.t|didn.t|won.t|can.t|isn.t|aren.t|wasn.t|weren.t)\b/`
(each `.` here stands for the apostrophe). -/
def NEGATION_WORDS : List Str :=
  [str "no", str "not",
   str "don" ++ [apos] ++ str "t", str "doesn" ++ [apos] ++ str "t",
   str "didn" ++ [apos] ++ str "t", str "won" ++ [apos] ++ str "t",
   str "can" ++ [apos] ++ str "t", str "isn" ++ [apos] ++ str "t",
   str "aren" ++ [apos] ++ str "t", str "wasn" ++ [apos] ++ str "t",
   str "weren" ++ [apos] ++ str "t"]

/-- Alternatives of `/\b(severe|terrible|awful|extreme|intense|unbearable|bad|really bad|very bad)\b/`. -/
def SEVERE_WORDS : List Str :=
  [str "severe", str "terrible", str "awful", str "extreme", str "intense",
   str "unbearable", str "bad", str "really bad", str "very bad"]

/-- Alternatives of `/\b(mild|slight|little|bit|somewhat|moderate)\b/`. -/
def MILD_WORDS : List Str :=
  [str "mild", str "slight", str "little", str "bit", str "somewhat", str "moderate"]

/-- Alternatives of `/\b(moderate|medium|okay|ok)\b/`. -/
def MODERATE_WORDS : List Str :=
  [str "moderate", str "medium", str "okay", str "ok"]

/-- The severity branch of `extractHealthInfo`, applied to the lowercased
containing sentence; starts from `defaultSeverity`, falling back to low. -/
def classifySeverity (sLower : Str) (defaultSeverity : Option Severity) : Severity :=
  if regexMatches sLower SEVERE_WORDS then .high
  else if regexMatches sLower MILD_WORDS then .low
  else if regexMatches sLower MODERATE_WORDS then .moderate
  else defaultSeverity.getD .low

/-- One element of the array returned by `extractHealthInfo`. -/
structure Detection where
  category : HealthCategory
  description : Str
  severity : Severity
  confidence : Confidence
deriving DecidableEq, Repr

/-- The body of the inner `keywords.forEach` of `extractHealthInfo`:
process one keyword of one category against the accumulated detections. -/
def processKeyword (textLower : Str) (sents : List Str) (category : HealthCategory)
    (defaultSeverity : Option Severity) (detected : List Detection) (keyword : Str) :
    List Detection :=
  if containsSub textLower keyword then
    match sents.find? (fun s => containsSub (lower s) keyword) with
    | some containingSentence =>
      let isExplicit := ! regexMatches (lower containingSentence) NEGATION_WORDS
      let severity := classifySeverity (lower containingSentence) defaultSeverity
      let alreadyDetected := detected.any (fun d =>
        decide (d.category = category) && containsSub (lower d.description) keyword)
      if ! alreadyDetected && isExplicit then
        detected ++ [⟨category, trim containingSentence, severity,
                      if isExplicit then .explicit else .inferred⟩]
      else detected
    | none => detected
  else detected

/-- `extractHealthInfo(text)`: the nested `forEach` over `HEALTH_KEYWORDS`
and the keywords of each entry, accumulating into `detected`. -/
def extractHealthInfo (text : Str) : List Detection :=
  let textLower := lower text
  let sents := sentencesOf text
  HEALTH_KEYWORDS.foldl
    (fun det entry =>
      entry.keywords.foldl
        (fun det2 kw => processKeyword textLower sents entry.category entry.severity det2 kw)
        det)
    []

/-- Nonempty with a non-whitespace first and last character.  This holds of
every keyword in `HEALTH_KEYWORDS` and guarantees that an occurrence of the
keyword survives `trim` of the surrounding string. -/
def kwOk (kw : Str) : Bool :=
  match kw, kw.reverse with
  | c :: _, d :: _ => ! isWs c && ! isWs d
  | _, _ => false

/-- Provenance of one detection returned by `extractHealthInfo` on `text`:
it was produced by some keyword of its own category, from the first sentence
containing that keyword; its description is that sentence trimmed; the
sentence does not match the negation regex; and its confidence is
explicit. -/
def GoodEntry (text : Str) (e : Detection) : Prop :=
  ∃ kw s, kw ∈ keywordsOf e.category ∧
    containsSub (lower text) kw = true ∧
    (sentencesOf text).find? (fun s2 => containsSub (lower s2) kw) = some s ∧
    e.description = trim s ∧
    regexMatches (lower s) NEGATION_WORDS = false ∧
    e.confidence = Confidence.explicit

/-- Invariant of the `detected` accumulator of `extractHealthInfo`: entries
of the same category have pairwise distinct descriptions, and every entry
has good provenance. -/
def DetectedInv (text : Str) (l : List Detection) : Prop :=
  List.Pairwise (fun a b => a.category = b.category → a.description ≠ b.description) l ∧
  ∀ e ∈ l, GoodEntry text e

/-! ## CLI scoring (`lib/cliScoring.ts`) -/

/-- The `CLIMetrics` interface: the six sub-scores. -/
structure CLIMetrics where
  lexicalAccess : ℚ
  fluency : ℚ
  syntacticComplexity : ℚ
  coherence : ℚ
  processingSpeed : ℚ
  attention : ℚ
deriving Repr

/-- The `CLIScore` interface. -/
structure CLIScore where
  overall : ℚ
  breakdown : CLIMetrics
deriving Repr

/-- The `WEIGHTS` constant (field order as in the source object). -/
structure CLIWeights where
  lexicalAccess : ℚ
  fluency : ℚ
  coherence : ℚ
  syntacticComplexity : ℚ
  processingSpeed : ℚ
  attention : ℚ

def WEIGHTS : CLIWeights :=
  { lexicalAccess := 0.20, fluency := 0.20, coherence := 0.20,
    syntacticComplexity := 0.15, processingSpeed := 0.15, attention := 0.10 }

/-- `Math.max` on two numbers. -/
def jsMax (a b : ℚ) : ℚ := if a ≤ b then b else a

/-- `Math.min` on two numbers. -/
def jsMin (a b : ℚ) : ℚ := if a ≤ b then a else b

/-- `Math.max(0, Math.min(100, x))`, the clamp ending most calculators. -/
def clamp100 (x : ℚ) : ℚ := jsMax 0 (jsMin 100 x)

/-- `Math.round`: round half towards positive infinity. -/
def jsRound (q : ℚ) : ℚ := ((⌊q + 1/2⌋ : ℤ) : ℚ)

/-- One element of the `messages` array.  A `Date` timestamp is modelled by
its `getTime()` value in milliseconds. -/
structure Message where
  role : Str
  content : Str
  timestamp : ℚ

/-- `calculateTypeTokenRatio`: unique words / total words, as a percentage. -/
def calculateTypeTokenRatio (text : Str) : ℚ :=
  let words := wordsOf (lower text)
  if words.length = 0 then 0
  else ((words.dedup.length : ℚ) / (words.length : ℚ)) * 100

/-- The `commonWords` set of `calculateVocabularyComplexity`. -/
def COMMON_WORDS : List Str :=
  [str "the", str "a", str "an", str "and", str "or", str "but", str "in", str "on",
   str "at", str "to", str "for", str "of", str "with", str "by", str "is", str "are",
   str "was", str "were", str "be", str "been", str "have", str "has", str "had",
   str "do", str "does", str "did", str "will", str "would", str "could", str "should",
   str "may", str "might", str "can", str "this", str "that", str "these", str "those",
   str "i", str "you", str "he", str "she", str "it", str "we", str "they"]

/-- `calculateVocabularyComplexity`. -/
def calculateVocabularyComplexity (text : Str) : ℚ :=
  let words := wordsOf (lower text)
  if words.length = 0 then 0
  else
    let complexityScore : ℚ := (words.map (fun word =>
      (if 6 < word.length then (2 : ℚ) else if 4 < word.length then 1 else 0) +
      (if COMMON_WORDS.contains word then 0 else 1))).sum
    jsMin 100 ((complexityScore / (words.length : ℚ)) * 20)

/-- `calculateLexicalAccess` (the `pauses`/`duration` arguments are unused in
the source body as well). -/
def calculateLexicalAccess (text : Str) (pauses duration : ℚ) : ℚ :=
  let words := wordsOf (lower text)
  let highFreqWords := words.dedup.countP (fun w => decide (5 < words.count w))
  let substitutionPenalty := jsMin 20 ((highFreqWords : ℚ) * 2)
  clamp100 (( calculateTypeTokenRatio text * 0.4 + calculateVocabularyComplexity text * 0.6)
    - substitutionPenalty)

/-- `calculateFluency`. -/
def calculateFluency (text : Str) (pauses duration fillerWords : ℚ) : ℚ :=
  let wordCount := (wordsOf text).length
  if wordCount = 0 ∨ duration = 0 then 0
  else
    let wordsPerMinute := ((wordCount : ℚ) / duration) * 60
    let pauseFrequency := if 0 < duration then (pauses / duration) * 60 else 0
    let fillerDensity := if 0 < wordCount then (fillerWords / (wordCount : ℚ)) * 100 else 0
    let score : ℚ := 100
    let score := if wordsPerMinute < 100 then score - 20
      else if 250 < wordsPerMinute then score - 15 else score
    let score := if 10 < pauseFrequency then score - 30
      else if 5 < pauseFrequency then score - 15 else score
    let score := if 10 < fillerDensity then score - 25
      else if 5 < fillerDensity then score - 10 else score
    clamp100 score

/-- Alternatives of the clause-marker regex
`/\b(and|or|but|because|since|when|where|which|that|who|whom|whose)\b/gi`. -/
def CLAUSE_MARKERS : List Str :=
  [str "and", str "or", str "but", str "because", str "since", str "when",
   str "where", str "which", str "that", str "who", str "whom", str "whose"]

/-- `calculateSyntacticComplexity`.  The global match count of a
`\b`-delimited alternation of plain words equals the number of maximal
word-character runs equal to one of the alternatives, which is how
`clauseMarkers.length` is rendered here. -/
def calculateSyntacticComplexity (text : Str) : ℚ :=
  let sentences := sentencesOf text
  if sentences.length = 0 then 0
  else
    let totalWords := (sentences.map (fun s => (wordsOf s).length)).sum
    let totalClauses := (sentences.map (fun s =>
      (wordsOf (lower s)).countP (fun w => CLAUSE_MARKERS.contains w) + 1)).sum
    let avgSentenceLength := (totalWords : ℚ) / (sentences.length : ℚ)
    let avgClausesPerSentence := (totalClauses : ℚ) / (sentences.length : ℚ)
    let score : ℚ :=
      (if 15 < avgSentenceLength then (40 : ℚ)
       else if 10 < avgSentenceLength then 30
       else if 5 < avgSentenceLength then 20 else 0)
      + (if 2 < avgClausesPerSentence then (40 : ℚ)
         else if 1.5 < avgClausesPerSentence then 30
         else if 1 < avgClausesPerSentence then 20 else 0)
      + (if sentences.any (fun s => decide (3 ≤ (wordsOf (lower s)).length)) then 20 else 0)
    clamp100 score

/-- The `for` loop of `calculateCoherence` counting adjacent topic changes. -/
def countTopicChanges : List Str → Nat
  | t1 :: t2 :: rest =>
    (if ((jsSplitSpace t1).filter (fun w => (jsSplitSpace t2).contains w)).length < 2
     then 1 else 0) + countTopicChanges (t2 :: rest)
  | _ => 0

/-- `calculateCoherence`. -/
def calculateCoherence (messages : List Message) : ℚ :=
  if messages.length < 2 then 50
  else
    let topics := messages.map (fun m => joinSpace ((wordsOf (lower m.content)).take 5))
    let topicChanges := countTopicChanges topics
    let score : ℚ := 100
    let score := if (messages.length : ℚ) * 0.5 < (topicChanges : ℚ) then score - 30
      else if (messages.length : ℚ) * 0.3 < (topicChanges : ℚ) then score - 15 else score
    let userMessages := (messages.filter (fun m => m.role == str "user")).map
      (fun m => lower m.content)
    let score := if (userMessages.dedup.length : ℚ) * 1.5 < (userMessages.length : ℚ)
      then score - 20 else score
    clamp100 score

/-- The latencies accumulated by both `for` loops of
`calculateProcessingSpeed`: a term per adjacent pair whose first message has
role sage and second has role user, in milliseconds. -/
def latencyPairs : List Message → List ℚ
  | m1 :: m2 :: rest =>
    (if m2.role == str "user" && m1.role == str "sage"
     then [m2.timestamp - m1.timestamp] else []) ++ latencyPairs (m2 :: rest)
  | _ => []

/-- Exact rational rendering of `Math.sqrt v > b` for `v ≥ 0`: true iff `b`
is negative or `v` exceeds `b²`. -/
def sqrtGt (v b : ℚ) : Bool := decide (b < 0) || decide (b ^ 2 < v)

/-- `calculateProcessingSpeed`. -/
def calculateProcessingSpeed (messages : List Message) (duration : ℚ) : ℚ :=
  if messages.length < 2 ∨ duration = 0 then 50
  else
    let userMessages := messages.filter (fun m => m.role == str "user")
    if userMessages.length < 2 then 50
    else
      let totalLatency := (latencyPairs messages).sum
      let avgLatency := totalLatency / ((userMessages.length : ℚ) - 1)
      let avgLatencySeconds := avgLatency / 1000
      let score : ℚ := 100
      let score := if 10 < avgLatencySeconds then score - 40
        else if 5 < avgLatencySeconds then score - 25
        else if 3 < avgLatencySeconds then score - 10
        else if avgLatencySeconds < 0.5 then score - 15 else score
      let latencies := (latencyPairs messages).map (fun l => l / 1000)
      let score := if 1 < latencies.length then
          let mean := latencies.sum / (latencies.length : ℚ)
          let variance := (latencies.map (fun v => (v - mean) ^ 2)).sum / (latencies.length : ℚ)
          if sqrtGt variance (mean * 0.5) then score - 10 else score
        else score
      clamp100 score

/-- The `referentialWords` list of `calculateAttention`. -/
def REFERENTIAL_WORDS : List Str :=
  [str "that", str "this", str "it", str "they", str "them", str "those",
   str "these", str "he", str "she", str "him", str "her"]

/-- The reference-counting `for` loop of `calculateAttention`, over the
filtered user messages. -/
def countReferences : List Message → Nat
  | u1 :: u2 :: rest =>
    let current := lower u2.content
    let prev := lower u1.content
    let hasReference := REFERENTIAL_WORDS.any (fun w => containsSub current w)
    let commonWords := (wordsOf current).filter
      (fun w => (wordsOf prev).contains w && decide (3 < w.length))
    (if hasReference || decide (2 < commonWords.length) then 1 else 0)
      + countReferences (u2 :: rest)
  | _ => 0

/-- `calculateAttention`. -/
def calculateAttention (messages : List Message) : ℚ :=
  if messages.length < 4 then 50
  else
    let userMessages := messages.filter (fun m => m.role == str "user")
    let references := countReferences userMessages
    let score : ℚ := 100
    let referenceRate := if 1 < userMessages.length
      then (references : ℚ) / ((userMessages.length : ℚ) - 1) else 0
    let score := if referenceRate < 0.2 then score - 30
      else if referenceRate < 0.4 then score - 15 else score
    let allUserText := joinSpace (userMessages.map (fun m => lower m.content))
    let words := wordsOf allUserText
    let highRepWords := words.dedup.countP (fun w => decide (10 < words.count w))
    let score := if 5 < highRepWords then score - 20 else score
    clamp100 score

/-- `calculateCLIScore`. -/
def calculateCLIScore (messages : List Message) (duration : ℚ)
    (pauses : ℚ := 0) (fillerWords : ℚ := 0) : CLIScore :=
  let fullText := joinSpace (messages.map (·.content))
  let lexicalAccess := calculateLexicalAccess fullText pauses duration
  let fluency := calculateFluency fullText pauses duration fillerWords
  let syntacticComplexity := calculateSyntacticComplexity fullText
  let coherence := calculateCoherence messages
  let processingSpeed := calculateProcessingSpeed messages duration
  let attention := calculateAttention messages
  let breakdown : CLIMetrics :=
    ⟨lexicalAccess, fluency, syntacticComplexity, coherence, processingSpeed, attention⟩
  let overall := jsRound (lexicalAccess * WEIGHTS.lexicalAccess
    + fluency * WEIGHTS.fluency
    + syntacticComplexity * WEIGHTS.syntacticComplexity
    + coherence * WEIGHTS.coherence
    + processingSpeed * WEIGHTS.processingSpeed
    + attention * WEIGHTS.attention)
  ⟨clamp100 overall, breakdown⟩

/-! ## Persistence sync (`components/App.tsx`, `saveUserData`) -/

/-- An item of one of the synced entity collections (talk sessions, health
cards, speech analyses, game results, insights); only its id takes part in
the reconciliation, the rest of the row is abstracted as a payload. -/
structure SyncItem where
  id : Str
  payload : Str
deriving DecidableEq

/-- The per-collection sync loop of `saveUserData`, identical for all five
collections: fetch the existing remote rows, collect their ids into a set,
then `create` every local item whose id is not in the set.  The function
returns the list of items passed to `create`, in loop order. -/
def syncCollectionCreates (existing localItems : List SyncItem) : List SyncItem :=
  let existingIds := existing.map SyncItem.id
  localItems.foldl
    (fun created item =>
      if existingIds.contains item.id then created else created ++ [item])
    []

/-! ## Basic facts about the clamp -/

lemma clamp100_nonneg (x : ℚ) : 0 ≤ clamp100 x := by
  unfold clamp100 jsMax jsMin
  split
  · norm_num
  · split
    · assumption
    · norm_num

lemma clamp100_le (x : ℚ) : clamp100 x ≤ 100 := by
  unfold clamp100 jsMax jsMin
  split
  · norm_num
  · next h =>
    split
    · linarith [le_of_not_le h]
    · norm_num

/-! ## Bounds of the six sub-scores -/

lemma calculateLexicalAccess_bounds (t : Str) (p d : ℚ) :
    0 ≤ calculateLexicalAccess t p d ∧ calculateLexicalAccess t p d ≤ 100 := by
  unfold calculateLexicalAccess
  exact ⟨clamp100_nonneg _, clamp100_le _⟩

lemma calculateFluency_bounds (t : Str) (p d f : ℚ) :
    0 ≤ calculateFluency t p d f ∧ calculateFluency t p d f ≤ 100 := by
  unfold calculateFluency
  dsimp only
  split
  · norm_num
  · exact ⟨clamp100_nonneg _, clamp100_le _⟩

lemma calculateSyntacticComplexity_bounds (t : Str) :
    0 ≤ calculateSyntacticComplexity t ∧ calculateSyntacticComplexity t ≤ 100 := by
  unfold calculateSyntacticComplexity
  dsimp only
  split
  · norm_num
  · exact ⟨clamp100_nonneg _, clamp100_le _⟩

lemma calculateCoherence_bounds (ms : List Message) :
    0 ≤ calculateCoherence ms ∧ calculateCoherence ms ≤ 100 := by
  unfold calculateCoherence
  dsimp only
  split
  · norm_num
  · exact ⟨clamp100_nonneg _, clamp100_le _⟩

lemma calculateProcessingSpeed_bounds (ms : List Message) (d : ℚ) :
    0 ≤ calculateProcessingSpeed ms d ∧ calculateProcessingSpeed ms d ≤ 100 := by
  unfold calculateProcessingSpeed
  dsimp only
  split
  · norm_num
  · split
    · norm_num
    · exact ⟨clamp100_nonneg _, clamp100_le _⟩

lemma calculateAttention_bounds (ms : List Message) :
    0 ≤ calculateAttention ms ∧ calculateAttention ms ≤ 100 := by
  unfold calculateAttention
  dsimp only
  split
  · norm_num
  · exact ⟨clamp100_nonneg _, clamp100_le _⟩

/-! ## Evaluation of the calculators on degenerate inputs -/

lemma calculateCoherence_nil : calculateCoherence [] = 50 := rfl

lemma calculateCoherence_single (m : Message) : calculateCoherence [m] = 50 := rfl

lemma calculateProcessingSpeed_nil (d : ℚ) : calculateProcessingSpeed [] d = 50 := rfl

lemma calculateProcessingSpeed_single (m : Message) (d : ℚ) :
    calculateProcessingSpeed [m] d = 50 := rfl

lemma calculateAttention_nil : calculateAttention [] = 50 := rfl

lemma calculateAttention_single (m : Message) : calculateAttention [m] = 50 := rfl

lemma calculateTypeTokenRatio_nil : calculateTypeTokenRatio [] = 0 := rfl

lemma calculateVocabularyComplexity_nil : calculateVocabularyComplexity [] = 0 := rfl

lemma calculateLexicalAccess_nil (p d : ℚ) : calculateLexicalAccess [] p d = 0 := by
  unfold calculateLexicalAccess
  dsimp only
  rw [calculateTypeTokenRatio_nil, calculateVocabularyComplexity_nil]
  norm_num [wordsOf, wordsAux, lower, clamp100, jsMax, jsMin]

lemma calculateFluency_nil (p d f : ℚ) : calculateFluency [] p d f = 0 := by
  unfold calculateFluency
  simp [wordsOf, wordsAux]

lemma calculateSyntacticComplexity_nil : calculateSyntacticComplexity [] = 0 := rfl

/-! ## Claims about the CLI scorer -/

/-- C1: for every input to the CLI scorer (any list of messages, any
duration, pause count and filler-word count), each of the six sub-scores in
the returned breakdown lies in `[0, 100]`, and the overall score lies in
`[0, 100]`. -/
theorem cli_all_scores_in_range (messages : List Message)
    (duration pauses fillerWords : ℚ) :
    (0 ≤ (calculateCLIScore messages duration pauses fillerWords).breakdown.lexicalAccess ∧
      (calculateCLIScore messages duration pauses fillerWords).breakdown.lexicalAccess ≤ 100) ∧
    (0 ≤ (calculateCLIScore messages duration pauses fillerWords).breakdown.fluency ∧
      (calculateCLIScore messages duration pauses fillerWords).breakdown.fluency ≤ 100) ∧
    (0 ≤ (calculateCLIScore messages duration pauses fillerWords).breakdown.syntacticComplexity ∧
      (calculateCLIScore messages duration pauses fillerWords).breakdown.syntacticComplexity ≤ 100) ∧
    (0 ≤ (calculateCLIScore messages duration pauses fillerWords).breakdown.coherence ∧
      (calculateCLIScore messages duration pauses fillerWords).breakdown.coherence ≤ 100) ∧
    (0 ≤ (calculateCLIScore messages duration pauses fillerWords).breakdown.processingSpeed ∧
      (calculateCLIScore messages duration pauses fillerWords).breakdown.processingSpeed ≤ 100) ∧
    (0 ≤ (calculateCLIScore messages duration pauses fillerWords).breakdown.attention ∧
      (calculateCLIScore messages duration pauses fillerWords).breakdown.attention ≤ 100) ∧
    (0 ≤ (calculateCLIScore messages duration pauses fillerWords).overall ∧
      (calculateCLIScore messages duration pauses fillerWords).overall ≤ 100) := by
  dsimp only [calculateCLIScore]
  exact ⟨calculateLexicalAccess_bounds _ _ _,
    calculateFluency_bounds _ _ _ _,
    calculateSyntacticComplexity_bounds _,
    calculateCoherence_bounds _,
    calculateProcessingSpeed_bounds _ _,
    calculateAttention_bounds _,
    clamp100_nonneg _, clamp100_le _⟩

/-- C2: on the empty transcript the CLI scorer returns exactly 50 for the
coherence, processing-speed and attention sub-scores, and exactly 0 for the
lexical-access, fluency and syntactic-complexity sub-scores, for every
duration, pause count and filler-word count. -/
theorem cli_empty_transcript_breakdown (d p f : ℚ) :
    (calculateCLIScore [] d p f).breakdown.coherence = 50 ∧
    (calculateCLIScore [] d p f).breakdown.processingSpeed = 50 ∧
    (calculateCLIScore [] d p f).breakdown.attention = 50 ∧
    (calculateCLIScore [] d p f).breakdown.lexicalAccess = 0 ∧
    (calculateCLIScore [] d p f).breakdown.fluency = 0 ∧
    (calculateCLIScore [] d p f).breakdown.syntacticComplexity = 0 := by
  dsimp only [calculateCLIScore, List.map_nil]
  exact ⟨calculateCoherence_nil, calculateProcessingSpeed_nil d, calculateAttention_nil,
    calculateLexicalAccess_nil p d, calculateFluency_nil p d f,
    calculateSyntacticComplexity_nil⟩

/-- C3, counterexample: the claim "for every degenerate input (empty text,
or a single message) every sub-score returns the neutral default 50" is
false: on the empty transcript the fluency sub-score is 0, not 50. -/
theorem cli_degenerate_not_all_50 :
    ¬ ((calculateCLIScore [] 60 0 0).breakdown.fluency = 50) := by
  have h : (calculateCLIScore [] 60 0 0).breakdown.fluency = 0 := by
    dsimp only [calculateCLIScore, List.map_nil]
    exact calculateFluency_nil 0 60 0
  rw [h]
  norm_num

/-- C3, amended: the CLI scorer is total and has no error conditions:
degenerate inputs return fixed defaults rather than failing.  The
message-based sub-scores (coherence, processing speed, attention) return the
neutral default 50 for a single-message (and empty) transcript, while the
text-based sub-scores (lexical access, fluency, syntactic complexity) return
0 for empty text. -/
theorem cli_degenerate_defaults (m : Message) (d p f : ℚ) :
    (calculateCLIScore [m] d p f).breakdown.coherence = 50 ∧
    (calculateCLIScore [m] d p f).breakdown.processingSpeed = 50 ∧
    (calculateCLIScore [m] d p f).breakdown.attention = 50 ∧
    (calculateCLIScore [] d p f).breakdown.lexicalAccess = 0 ∧
    (calculateCLIScore [] d p f).breakdown.fluency = 0 ∧
    (calculateCLIScore [] d p f).breakdown.syntacticComplexity = 0 := by
  refine ⟨?_, ?_, ?_, ?_, ?_, ?_⟩
  · exact calculateCoherence_single m
  · exact calculateProcessingSpeed_single m d
  · exact calculateAttention_single m
  all_goals dsimp only [calculateCLIScore, List.map_nil]
  · exact calculateLexicalAccess_nil p d
  · exact calculateFluency_nil p d f
  · exact calculateSyntacticComplexity_nil

/-- C4: the overall CLI score is the weighted sum of the six sub-scores with
fixed weights 20% lexical access, 20% fluency, 15% syntactic complexity,
20% coherence, 15% processing speed and 10% attention, rounded to the
nearest integer (`Math.round`) and clamped to `[0, 100]`. -/
theorem cli_overall_is_weighted_sum (messages : List Message)
    (duration pauses fillerWords : ℚ) :
    (calculateCLIScore messages duration pauses fillerWords).overall =
      clamp100 (jsRound (
        (calculateCLIScore messages duration pauses fillerWords).breakdown.lexicalAccess * (20/100)
        + (calculateCLIScore messages duration pauses fillerWords).breakdown.fluency * (20/100)
        + (calculateCLIScore messages duration pauses fillerWords).breakdown.syntacticComplexity * (15/100)
        + (calculateCLIScore messages duration pauses fillerWords).breakdown.coherence * (20/100)
        + (calculateCLIScore messages duration pauses fillerWords).breakdown.processingSpeed * (15/100)
        + (calculateCLIScore messages duration pauses fillerWords).breakdown.attention * (10/100))) := by
  dsimp only [calculateCLIScore]
  congr 2
  norm_num [WEIGHTS]

/-! ## Substring occurrences and `trim` -/

lemma startsWith_iff (p : Str) : ∀ s : Str, startsWith s p = true ↔ ∃ r, s = p ++ r := by
  induction p with
  | nil =>
    intro s
    constructor
    · intro _; exact ⟨s, rfl⟩
    · intro _; cases s <;> rfl
  | cons q ps ih =>
    intro s
    cases s with
    | nil =>
      simp only [startsWith]
      constructor
      · intro h; exact absurd h (by simp)
      · rintro ⟨r, hr⟩; exact absurd hr (by simp)
    | cons h hs =>
      simp only [startsWith, Bool.and_eq_true, beq_iff_eq, ih hs]
      constructor
      · rintro ⟨rfl, r, rfl⟩; exact ⟨r, rfl⟩
      · rintro ⟨r, hr⟩
        rw [List.cons_append] at hr
        obtain ⟨h1, h2⟩ := List.cons.injEq .. ▸ hr
        exact ⟨h1, r, h2⟩

lemma containsSub_iff (p : Str) : ∀ s : Str, containsSub s p = true ↔ ∃ a b, s = a ++ p ++ b := by
  intro s
  induction s with
  | nil =>
    simp only [containsSub, List.isEmpty_iff]
    constructor
    · rintro rfl; exact ⟨[], [], rfl⟩
    · rintro ⟨a, b, hab⟩
      rcases List.append_eq_nil.mp (List.append_eq_nil.mp hab.symm).1 with ⟨_, h2⟩
      exact h2
  | cons h t ih =>
    simp only [containsSub, Bool.or_eq_true, startsWith_iff, ih]
    constructor
    · rintro (⟨r, hr⟩ | ⟨a, b, hab⟩)
      · exact ⟨[], r, by simpa using hr⟩
      · exact ⟨h :: a, b, by simp [hab]⟩
    · rintro ⟨a, b, hab⟩
      cases a with
      | nil => exact Or.inl ⟨b, by simpa using hab⟩
      | cons x a' =>
        right
        rw [List.cons_append, List.cons_append] at hab
        obtain ⟨-, h2⟩ := List.cons.injEq .. ▸ hab
        exact ⟨a', b, by simpa using h2⟩

lemma containsSub_reverse_of {s p : Str} (h : containsSub s p = true) :
    containsSub s.reverse p.reverse = true := by
  rw [containsSub_iff] at h ⊢
  obtain ⟨a, b, rfl⟩ := h
  exact ⟨b.reverse, a.reverse, by simp⟩

lemma containsSub_dropWhile {c : Nat} {ps s : Str} (hc : isWs c = false)
    (h : containsSub s (c :: ps) = true) :
    containsSub (s.dropWhile isWs) (c :: ps) = true := by
  induction s with
  | nil => exact absurd h (by simp [containsSub])
  | cons x t ih =>
    rw [List.dropWhile_cons]
    by_cases hws : isWs x
    · simp only [hws, if_true]
      apply ih
      have := (Bool.or_eq_true ..).mp (by simpa [containsSub] using h)
      rcases this with hsw | hrec
      · exfalso
        simp only [startsWith, Bool.and_eq_true, beq_iff_eq] at hsw
        rw [hsw.1] at hws
        rw [hc] at hws
        exact Bool.false_ne_true hws
      · exact hrec
    · simp only [hws, if_false]
      exact h

/-- An occurrence of a pattern with non-whitespace endpoints survives `trim`. -/
lemma containsSub_trim {kw s : Str} (hok : kwOk kw = true)
    (h : containsSub s kw = true) : containsSub (trim s) kw = true := by
  rcases kw with _ | ⟨c, t⟩
  · exact absurd hok (by simp [kwOk])
  rcases hrev : (c :: t).reverse with _ | ⟨d, t'⟩
  · exact absurd hrev (by simp)
  unfold kwOk at hok
  rw [hrev] at hok
  simp only [Bool.and_eq_true, Bool.not_eq_true'] at hok
  have step1 : containsSub (s.dropWhile isWs) (c :: t) = true := containsSub_dropWhile hok.1 h
  have step2 := containsSub_reverse_of step1
  rw [hrev] at step2
  have step3 : containsSub ((s.dropWhile isWs).reverse.dropWhile isWs) (d :: t') = true :=
    containsSub_dropWhile hok.2 step2
  have step4 := containsSub_reverse_of step3
  rw [← hrev, List.reverse_reverse] at step4
  exact step4

lemma isWs_lowerChar (c : Nat) : isWs (lowerChar c) = isWs c := by
  unfold lowerChar
  split
  · next h =>
    simp only [Bool.and_eq_true, decide_eq_true_eq] at h
    have h1 : isWs (c + 32) = false := by
      simp only [isWs, Bool.or_eq_false_iff, beq_eq_false_iff_ne, ne_eq]
      omega
    have h2 : isWs c = false := by
      simp only [isWs, Bool.or_eq_false_iff, beq_eq_false_iff_ne, ne_eq]
      omega
    rw [h1, h2]
  · rfl

lemma lower_dropWhile (s : Str) : lower (s.dropWhile isWs) = (lower s).dropWhile isWs := by
  have hfun : (isWs ∘ lowerChar) = isWs := by
    funext c; exact isWs_lowerChar c
  rw [lower, lower, List.dropWhile_map, hfun]

lemma lower_reverse (s : Str) : lower s.reverse = (lower s).reverse :=
  List.map_reverse ..

lemma lower_trim (s : Str) : lower (trim s) = trim (lower s) := by
  unfold trim
  rw [lower_reverse, lower_dropWhile, lower_reverse, lower_dropWhile]

/-! ## Regex-alternation monotonicity -/

lemma altsMatchAux_mono {a : Str} {alts : List Str} (ha : a ∈ alts) :
    ∀ (prev : Option Nat) (hay : Str),
      altsMatchAux [a] prev hay = true → altsMatchAux alts prev hay = true := by
  intro prev hay
  induction hay generalizing prev with
  | nil =>
    intro h
    simp only [altsMatchAux, List.any_eq_true] at h ⊢
    obtain ⟨x, hx, hxx⟩ := h
    rw [List.mem_singleton] at hx
    subst hx
    exact ⟨x, ha, hxx⟩
  | cons c t ih =>
    intro h
    simp only [altsMatchAux, Bool.or_eq_true, List.any_eq_true] at h ⊢
    rcases h with ⟨x, hx, hxx⟩ | hrec
    · rw [List.mem_singleton] at hx
      subst hx
      exact Or.inl ⟨x, ha, hxx⟩
    · exact Or.inr (ih _ hrec)

lemma regexMatches_mono {a : Str} {alts : List Str} (ha : a ∈ alts) {hay : Str}
    (h : regexMatches hay [a] = true) : regexMatches hay alts = true :=
  altsMatchAux_mono ha none hay h

/-! ## The accumulator invariant of `extractHealthInfo` -/

lemma processKeyword_inv (text : Str) (cat : HealthCategory) (sev : Option Severity)
    (det : List Detection) (kw : Str)
    (hkw : kw ∈ keywordsOf cat) (hok : kwOk kw = true)
    (hinv : DetectedInv text det) :
    DetectedInv text (processKeyword (lower text) (sentencesOf text) cat sev det kw) := by
  unfold processKeyword
  split
  · next htl =>
    split
    · next s hfind =>
      dsimp only
      split
      · next hguard =>
        simp only [Bool.and_eq_true, Bool.not_eq_true'] at hguard
        obtain ⟨halready, hexp⟩ := hguard
        have hs : containsSub (lower s) kw = true := by
          have := List.find?_some hfind
          simpa using this
        have htrim : containsSub (lower (trim s)) kw = true := by
          rw [lower_trim]
          exact containsSub_trim hok hs
        constructor
        · rw [List.pairwise_append]
          refine ⟨hinv.1, List.pairwise_singleton .., ?_⟩
          intro a ha b hb
          rw [List.mem_singleton] at hb
          subst hb
          intro hacat heq
          have hfa := List.any_eq_false.mp halready a ha
          simp [hacat] at hfa
          rw [heq, htrim] at hfa
          simp at hfa
        · intro e he
          rcases List.mem_append.mp he with hin | hnew
          · exact hinv.2 e hin
          · rw [List.mem_singleton] at hnew
            subst hnew
            refine ⟨kw, s, hkw, htl, hfind, rfl, hexp, ?_⟩
            simp [hexp]
      · exact hinv
    · exact hinv
  · exact hinv

lemma foldl_keywords_inv (text : Str) (cat : HealthCategory) (sev : Option Severity) :
    ∀ (kws : List Str) (det : List Detection),
      (∀ kw ∈ kws, kw ∈ keywordsOf cat ∧ kwOk kw = true) →
      DetectedInv text det →
      DetectedInv text (kws.foldl
        (fun d kw => processKeyword (lower text) (sentencesOf text) cat sev d kw) det) := by
  intro kws
  induction kws with
  | nil => intro det _ h; simpa using h
  | cons kw rest ih =>
    intro det hall hinv
    rw [List.foldl_cons]
    exact ih _ (fun k hk => hall k (List.mem_cons_of_mem _ hk))
      (processKeyword_inv text cat sev det kw (hall kw (List.mem_cons_self ..)).1
        (hall kw (List.mem_cons_self ..)).2 hinv)

lemma foldl_table_inv (text : Str) :
    ∀ (L : List HealthKeyword) (det : List Detection),
      (∀ t ∈ L, ∀ kw ∈ t.keywords, kw ∈ keywordsOf t.category ∧ kwOk kw = true) →
      DetectedInv text det →
      DetectedInv text (L.foldl
        (fun d entry => entry.keywords.foldl
          (fun d2 kw => processKeyword (lower text) (sentencesOf text)
            entry.category entry.severity d2 kw) d)
        det) := by
  intro L
  induction L with
  | nil => intro det _ h; simpa using h
  | cons entry rest ih =>
    intro det hall hinv
    rw [List.foldl_cons]
    exact ih _ (fun t ht => hall t (List.mem_cons_of_mem _ ht))
      (foldl_keywords_inv text entry.category entry.severity entry.keywords det
        (hall entry (List.mem_cons_self ..)) hinv)

lemma extractHealthInfo_inv (text : Str) : DetectedInv text (extractHealthInfo text) := by
  unfold extractHealthInfo
  dsimp only
  exact foldl_table_inv text HEALTH_KEYWORDS [] (by decide)
    ⟨List.Pairwise.nil, by simp⟩

/-! ## Claims about `extractHealthInfo` -/

/-- C5, counterexample: the claim "the health keyword matcher returns at
most one entry per category" is false.  On the input
`"I have pain. My arm is sore"` the keyword `pain` matches the first
sentence and the keyword `sore` matches the second; the duplicate check
only suppresses a keyword that occurs inside an earlier description of the
same category, so two `pain` entries are returned. -/
theorem extractHealthInfo_two_pain_entries :
    ¬ (((extractHealthInfo (str "I have pain. My arm is sore")).filter
        (fun d => decide (d.category = HealthCategory.pain))).length ≤ 1) := by decide

/-- C5, amended: within a category the first matching keyword wins in the
sense that every returned entry is produced by some keyword of its own
category, present in the lowercased text, and its description is the trimmed
first sentence containing that keyword; a further match for the same
category is suppressed only when the keyword occurs inside an earlier
description of that category (substring-based duplicate check), so several
entries per category can occur when keywords match different sentences. -/
theorem extractHealthInfo_provenance (text : Str) (e : Detection)
    (he : e ∈ extractHealthInfo text) :
    ∃ kw s, kw ∈ keywordsOf e.category ∧
      containsSub (lower text) kw = true ∧
      (sentencesOf text).find? (fun s2 => containsSub (lower s2) kw) = some s ∧
      e.description = trim s := by
  obtain ⟨kw, s, h1, h2, h3, h4, -, -⟩ := (extractHealthInfo_inv text).2 e he
  exact ⟨kw, s, h1, h2, h3, h4⟩

/-- Witness for the amended C5 theorem at a concrete input. -/
theorem extractHealthInfo_provenance_witness :
    (⟨HealthCategory.pain, str "I have pain", Severity.moderate, Confidence.explicit⟩ : Detection)
        ∈ extractHealthInfo (str "I have pain") ∧
    ∃ kw s, kw ∈ keywordsOf HealthCategory.pain ∧
      containsSub (lower (str "I have pain")) kw = true ∧
      (sentencesOf (str "I have pain")).find? (fun s2 => containsSub (lower s2) kw) = some s ∧
      str "I have pain" = trim s :=
  ⟨by decide, extractHealthInfo_provenance (str "I have pain")
    ⟨HealthCategory.pain, str "I have pain", Severity.moderate, Confidence.explicit⟩ (by decide)⟩

/-- C6: the list returned by `extractHealthInfo` never contains two entries
with the same category whose descriptions come out equal; in particular it
never contains two entries with the same category and the same sentence of
the input as description (every description is a trimmed sentence). -/
theorem extractHealthInfo_no_duplicates (text : Str) :
    List.Pairwise (fun a b => a.category = b.category → a.description ≠ b.description)
      (extractHealthInfo text) :=
  (extractHealthInfo_inv text).1

/-- C7: no sentence that matches the negation-word regex produces an entry:
every entry returned by `extractHealthInfo` originates from a sentence of
the input on which the negation regex does not match (its description is
that sentence, trimmed).  E.g. `"no pain"` yields no explicit pain
detection. -/
theorem extractHealthInfo_not_negated (text : Str) (e : Detection)
    (he : e ∈ extractHealthInfo text) :
    ∃ s ∈ sentencesOf text, e.description = trim s ∧
      regexMatches (lower s) NEGATION_WORDS = false := by
  obtain ⟨kw, s, -, -, h3, h4, h5, -⟩ := (extractHealthInfo_inv text).2 e he
  exact ⟨s, List.mem_of_find?_eq_some h3, h4, h5⟩

/-- Witness for the C7 theorem at a concrete input. -/
theorem extractHealthInfo_not_negated_witness :
    (⟨HealthCategory.pain, str "I have pain", Severity.moderate, Confidence.explicit⟩ : Detection)
        ∈ extractHealthInfo (str "I have pain") ∧
    ∃ s ∈ sentencesOf (str "I have pain"), str "I have pain" = trim s ∧
      regexMatches (lower s) NEGATION_WORDS = false :=
  ⟨by decide, extractHealthInfo_not_negated (str "I have pain")
    ⟨HealthCategory.pain, str "I have pain", Severity.moderate, Confidence.explicit⟩ (by decide)⟩

/-- C8: every entry returned by `extractHealthInfo` has confidence
explicit; the value inferred is never produced, because an entry is
only pushed when the negation check classified its sentence as explicit. -/
theorem extractHealthInfo_confidence_explicit (text : Str) (e : Detection)
    (he : e ∈ extractHealthInfo text) :
    e.confidence = Confidence.explicit := by
  obtain ⟨-, -, -, -, -, -, -, h⟩ := (extractHealthInfo_inv text).2 e he
  exact h

/-- Witness for the C8 theorem at a concrete input. -/
theorem extractHealthInfo_confidence_explicit_witness :
    (⟨HealthCategory.pain, str "I have pain", Severity.moderate, Confidence.explicit⟩ : Detection)
        ∈ extractHealthInfo (str "I have pain") ∧
    (⟨HealthCategory.pain, str "I have pain", Severity.moderate,
        Confidence.explicit⟩ : Detection).confidence = Confidence.explicit :=
  ⟨by decide, extractHealthInfo_confidence_explicit (str "I have pain")
    ⟨HealthCategory.pain, str "I have pain", Severity.moderate, Confidence.explicit⟩ (by decide)⟩

/-- C9: the severity branch of `extractHealthInfo` checks the severe-term
regex first, so a sentence matching it is always classified high
regardless of the category default; and because the mild-term list contains
the word `moderate` and is checked before the moderate branch, a sentence
containing the word `moderate` with no severe term is always classified
low, never moderate. -/
theorem classifySeverity_branch_order (s : Str) (d : Option Severity) :
    (regexMatches s SEVERE_WORDS = true → classifySeverity s d = Severity.high) ∧
    (regexMatches s SEVERE_WORDS = false → regexMatches s [str "moderate"] = true →
      classifySeverity s d = Severity.low ∧ classifySeverity s d ≠ Severity.moderate) := by
  constructor
  · intro h
    unfold classifySeverity
    rw [h]
    rfl
  · intro hsev hmod
    have hmild : regexMatches s MILD_WORDS = true :=
      regexMatches_mono (by decide : str "moderate" ∈ MILD_WORDS) hmod
    unfold classifySeverity
    rw [hsev, hmild]
    exact ⟨rfl, by simp⟩

/-- Witness for the C9 theorem at concrete sentences. -/
theorem classifySeverity_branch_order_witness :
    (regexMatches (lower (str "the pain is severe")) SEVERE_WORDS = true ∧
      classifySeverity (lower (str "the pain is severe")) (some Severity.moderate)
        = Severity.high) ∧
    (regexMatches (lower (str "the pain is moderate")) SEVERE_WORDS = false ∧
      regexMatches (lower (str "the pain is moderate")) [str "moderate"] = true ∧
      (classifySeverity (lower (str "the pain is moderate")) (some Severity.moderate)
          = Severity.low ∧
        classifySeverity (lower (str "the pain is moderate")) (some Severity.moderate)
          ≠ Severity.moderate)) :=
  ⟨⟨by decide, (classifySeverity_branch_order (lower (str "the pain is severe"))
      (some Severity.moderate)).1 (by decide)⟩,
   ⟨by decide, by decide, (classifySeverity_branch_order (lower (str "the pain is moderate"))
      (some Severity.moderate)).2 (by decide) (by decide)⟩⟩

/-! ## Claim about the persistence sync -/

lemma syncCreates_foldl (existingIds : List Str) :
    ∀ (l : List SyncItem) (acc : List SyncItem),
      l.foldl (fun created item =>
        if existingIds.contains item.id then created else created ++ [item]) acc
        = acc ++ l.filter (fun item => ! existingIds.contains item.id) := by
  intro l
  induction l with
  | nil => intro acc; simp
  | cons x t ih =>
    intro acc
    rw [List.foldl_cons]
    by_cases hx : existingIds.contains x.id
    · rw [if_pos hx, ih, List.filter_cons]
      simp at hx
      simp [hx]
    · rw [if_neg hx, ih, List.filter_cons]
      simp at hx
      simp [hx]

/-- C10: for each synced entity collection, the sync loop creates in the
remote store exactly those local items whose id is not among the ids fetched
from the remote store, in order; an item whose id is already present is
never re-inserted (and the loop performs no merge of any kind). -/
theorem syncCollectionCreates_exactly_missing (existing localItems : List SyncItem) :
    syncCollectionCreates existing localItems =
      localItems.filter (fun item => ! (existing.map SyncItem.id).contains item.id) ∧
    ∀ item : SyncItem,
      (item ∈ syncCollectionCreates existing localItems ↔
        item ∈ localItems ∧ (existing.map SyncItem.id).contains item.id = false) := by
  have heq : syncCollectionCreates existing localItems =
      localItems.filter (fun item => ! (existing.map SyncItem.id).contains item.id) := by
    unfold syncCollectionCreates
    rw [syncCreates_foldl]
    simp
  refine ⟨heq, ?_⟩
  intro item
  rw [heq, List.mem_filter]
  simp [Bool.not_eq_true']
